/-
Verification of the operational-space controller (OSC) in
`abr_control/controllers/osc.py` against its natural-language specification.

The controller is shallowly embedded over exact rational arithmetic:
numpy float arrays become `Fin k → ℚ` vectors and `Matrix (Fin r) (Fin c) ℚ`
matrices.  `np.linalg.inv` raises `LinAlgError` precisely on an exactly
singular matrix, so it is modelled as an `Option`-valued function.  The sole
IEEE-754 artefact the control law relies on is that `vmax / 0.0` yields
`+inf` (with `vmax > 0`), which then compares `inf < 1 = False` and clips to
`1`; this is modelled with `WithTop ℚ`, where `⊤` plays the role of `+inf`.
-/
import Mathlib

namespace ABR

/-- Exact rational value of the IEEE-754 double constant `np.pi`
(`math.pi = 884279719003555 / 2^48`). -/
def npPi : ℚ := 884279719003555 / 281474976710656

/-- Python / numpy floating `%` (modulo): `x % y = x - y * floor (x / y)`
(result carries the sign of the divisor `y`).  Used for the rest-angle wrap
`(REST_ANGLES - q + pi) % (2 pi) - pi` at line 228. -/
def fmod (x y : ℚ) : ℚ := x - y * ⌊x / y⌋

/-- `np.sign` on scalars. -/
def npSign (x : ℚ) : ℚ := if 0 < x then 1 else if x < 0 then -1 else 0

/-- `np.clip (v, 0, 1)` on a scalar. -/
def clip01 (x : ℚ) : ℚ := min (max x 0) 1

/-- The value `np.linalg.inv` returns on a nonsingular matrix:
`det⁻¹ • adjugate`, a computable form of Mathlib's `Matrix.inv`. -/
def npInvVal {k : ℕ} (A : Matrix (Fin k) (Fin k) ℚ) : Matrix (Fin k) (Fin k) ℚ :=
  A.det⁻¹ • A.adjugate

/-- `np.linalg.inv`: raises `LinAlgError` (modelled as `none`) exactly when
the matrix is singular, otherwise returns the inverse (lines 141, 149). -/
def npInv {k : ℕ} (A : Matrix (Fin k) (Fin k) ℚ) : Option (Matrix (Fin k) (Fin k) ℚ) :=
  if A.det = 0 then none else some (npInvVal A)

theorem npInvVal_eq_inv {k : ℕ} (A : Matrix (Fin k) (Fin k) ℚ) : npInvVal A = A⁻¹ := by
  rw [npInvVal, Matrix.inv_def, Ring.inverse_eq_inv]

theorem npInv_eq_some {k : ℕ} {A : Matrix (Fin k) (Fin k) ℚ} (h : A.det ≠ 0) :
    npInv A = some (npInvVal A) := by
  rw [npInv, if_neg h]

theorem npInv_some_det {k : ℕ} {A B : Matrix (Fin k) (Fin k) ℚ}
    (h : npInv A = some B) : A.det ≠ 0 := by
  intro hd
  rw [npInv, if_pos hd] at h
  exact Option.noConfusion h

/-! ## The velocity-limiting stage (osc.py lines 164-185)

`sat = self.vmax / (self.lamb * np.abs(x_tilde))` divides the positive speed
limit elementwise by `lamb * |e|`; in IEEE arithmetic a zero denominator
yields `+inf`, modelled as `⊤ : WithTop ℚ`.  `np.any(sat < 1)` and
`np.argmin(sat)` then operate on these extended values (`inf < 1` is false,
and `argmin` returns the first index attaining the minimum). -/

/-- `sat` vector of line 166. -/
def satVec (vmax lamb : ℚ) (e : Fin 3 → ℚ) (i : Fin 3) : WithTop ℚ :=
  if lamb * |e i| = 0 then ⊤ else ((vmax / (lamb * |e i|) : ℚ) : WithTop ℚ)

/-- `np.argmin` over a 3-vector: first index attaining the minimum
(line 168). -/
def argmin3 (f : Fin 3 → WithTop ℚ) : Fin 3 :=
  if f 0 ≤ f 1 ∧ f 0 ≤ f 2 then 0 else if f 1 ≤ f 2 then 1 else 2

/-- The `scale` vector of lines 167-174: all-ones when no axis is saturated;
otherwise the constant `clipped / unclipped = kv * vmax * sign(e_idx) /
(kp * e_idx)` with the most-saturated entry overwritten to `1`. -/
def scaleVec (kp kv vmax lamb : ℚ) (e : Fin 3 → ℚ) : Fin 3 → ℚ :=
  let sat := satVec vmax lamb e
  if sat 0 < 1 ∨ sat 1 < 1 ∨ sat 2 < 1 then
    let index := argmin3 sat
    fun i => if i = index then 1 else kv * vmax * npSign (e index) / (kp * e index)
  else fun _ => 1

/-- `np.clip (s / sc, 0, 1)` for one axis, where `s` may be `+inf` (`⊤`).
IEEE semantics: `+inf / sc` is `+inf` for `sc ≥ 0` (clipped to 1) and `-inf`
for `sc < 0` (clipped to 0); a finite positive value divided by `0.0` is
`+inf` (clipped to 1).  The `0/0` NaN corner is unreachable in the program
(`scale` is never 0 on the saturated branch) and is modelled as 0. -/
def clipFrac (s : WithTop ℚ) (sc : ℚ) : ℚ :=
  if s = ⊤ then (if sc < 0 then 0 else 1)
  else if sc = 0 then (if 0 < s.untop' 0 then 1 else 0)
  else clip01 (s.untop' 0 / sc)

/-- The clipped approach-velocity term of lines 178-179:
`np.clip(sat / scale, 0, 1) * -self.lamb * scale * x_tilde`, elementwise. -/
def approachVel (kp kv lamb vmax : ℚ) (e : Fin 3 → ℚ) (i : Fin 3) : ℚ :=
  clipFrac (satVec vmax lamb e i) (scaleVec kp kv vmax lamb e i) *
    (-lamb * scaleVec kp kv vmax lamb e i * e i)

/-- Task-space force on the velocity-limited branch (lines 176-179):
`u_task = -kv * (dx - target_vel - clipped_approach_velocity)`. -/
def uTaskVmax (kp kv lamb vmax : ℚ) (e dx tv : Fin 3 → ℚ) (i : Fin 3) : ℚ :=
  -kv * (dx i - tv i - approachVel kp kv lamb vmax e i)

/-! ## The null-space filter (osc.py lines 235-236) -/

/-- `Jbar = np.dot(M_inv, np.dot(J.T, Mx))`;
`null_filter = IDENTITY_N_JOINTS - np.dot(J.T, Jbar.T)`. -/
def nullFilterOf {n : ℕ} (M_inv : Matrix (Fin n) (Fin n) ℚ)
    (Mx : Matrix (Fin 3) (Fin 3) ℚ) (J : Matrix (Fin 3) (Fin n) ℚ) :
    Matrix (Fin n) (Fin n) ℚ :=
  1 - J.transpose * (M_inv * J.transpose * Mx).transpose

/-! ## Controller data -/

/-- The gain/flag attributes stored by `OSC.__init__` (lines 51-59, 71-72).
`lamb = kp / kv`, `nkp = kp * 0.1` are derived there; `nkv = np.sqrt(nkp)`
is an irrational square root computed by numpy, so it is carried as an
opaque rational field whose value no theorem depends on. -/
structure OSCParams where
  kp : ℚ
  kv : ℚ
  ki : ℚ
  vmax : Option ℚ
  lamb : ℚ
  nkp : ℚ
  nkv : ℚ
  null_control : Bool
  use_g : Bool
  use_C : Bool
  use_dJ : Bool

/-- The robot-model collaborator (`robot_config`): pure query functions of
the joint state (§4.1 of the spec).  `J` is already the 3-row position slice
taken at line 134; the reference frame and offset point are folded into
`Tx`/`J`/`dJ` since they are fixed per call.  `restMask` is the
`~np.isnan(REST_ANGLES)` mask of line 67. -/
structure RobotModel (n : ℕ) where
  Tx : (Fin n → ℚ) → (Fin 3 → ℚ)
  J : (Fin n → ℚ) → Matrix (Fin 3) (Fin n) ℚ
  dJ : (Fin n → ℚ) → (Fin n → ℚ) → Matrix (Fin 3) (Fin n) ℚ
  M : (Fin n → ℚ) → Matrix (Fin n) (Fin n) ℚ
  g : (Fin n → ℚ) → (Fin n → ℚ)
  c : (Fin n → ℚ) → (Fin n → ℚ) → (Fin n → ℚ)
  restMask : Fin n → Bool
  restAngles : Fin n → ℚ

/-- The mutable controller state that persists across `generate` calls:
`self.integrated_error` (line 62/64) and `self.dq_des` (line 68). -/
structure OSCState (n : ℕ) where
  integrated_error : Fin 3 → ℚ
  dq_des : Fin n → ℚ

/-- Result of one `generate` call: the returned torque `u`, the
`training_signal` snapshot (line 219), the force of the vmax stage
(`self.u_vmax`, lines 180/184), the task-space inertia `Mx` and the
well-conditioned indicator `Mx_non_singular` (lines 150/156), and the
updated persistent state. -/
structure GenOut (n : ℕ) where
  u : Fin n → ℚ
  training_signal : Fin n → ℚ
  u_vmax : Fin 3 → ℚ
  Mx : Matrix (Fin 3) (Fin 3) ℚ
  Mx_non_singular : Option (Matrix (Fin 3) (Fin 3) ℚ)
  state : OSCState n

/-- The body of `OSC.generate` after the task-space inertia has been
obtained: lines 159-240 of osc.py, stage by stage. -/
def generateCore {n : ℕ} (p : OSCParams) (rm : RobotModel n) (q dq : Fin n → ℚ)
    (target_pos target_vel : Fin 3 → ℚ) (ee_force : Option (Fin 3 → ℚ))
    (st : OSCState n) (M_inv : Matrix (Fin n) (Fin n) ℚ)
    (Mx : Matrix (Fin 3) (Fin 3) ℚ) (mxns : Option (Matrix (Fin 3) (Fin 3) ℚ)) :
    GenOut n :=
  let xyz := rm.Tx q
  let J := rm.J q
  let M := rm.M q
  -- line 162: x_tilde = xyz - target_pos
  let x_tilde : Fin 3 → ℚ := fun i => xyz i - target_pos i
  -- lines 164-185: velocity-limited force, or the pure proportional force
  let u_vmax : Fin 3 → ℚ :=
    match p.vmax with
    | some v => uTaskVmax p.kp p.kv p.lamb v x_tilde (J.mulVec dq) target_vel
    | none => fun i => -p.kp * x_tilde i
  -- lines 187-193: u_task -= dJ @ dq
  let u_task1 : Fin 3 → ℚ :=
    if p.use_dJ then fun i => u_vmax i - ((rm.dJ q dq).mulVec dq) i else u_vmax
  -- lines 195-198: integrated_error += x_tilde; u_task -= ki * integrated_error
  let ie' : Fin 3 → ℚ :=
    if p.ki ≠ 0 then fun i => st.integrated_error i + x_tilde i
    else st.integrated_error
  let u_task2 : Fin 3 → ℚ :=
    if p.ki ≠ 0 then fun i => u_task1 i - p.ki * ie' i else u_task1
  -- lines 201-202: u_task += ee_force
  let u_task : Fin 3 → ℚ :=
    match ee_force with
    | some f => fun i => u_task2 i + f i
    | none => u_task2
  -- line 206: u = J.T @ (Mx @ u_task)
  let u0 := J.transpose.mulVec (Mx.mulVec u_task)
  -- lines 209-210: if vmax is None: u -= M @ dq
  let u1 := if p.vmax = none then u0 - M.mulVec dq else u0
  -- lines 212-214: if use_C: u -= c(q, dq)
  let u2 := if p.use_C then u1 - rm.c q dq else u1
  -- line 219: training_signal = copy(u)
  let training := u2
  -- lines 222-223: if use_g: u -= g(q)
  let u3 := if p.use_g then u2 - rm.g q else u2
  -- lines 226-238: null-space secondary controller
  let dq_des' : Fin n → ℚ :=
    if p.null_control then (fun j => if rm.restMask j then dq j else st.dq_des j)
    else st.dq_des
  let u4 :=
    if p.null_control then
      -- lines 228-230: q_des = ((REST_ANGLES - q + pi) % (2 pi)) - pi, masked to 0
      let q_des : Fin n → ℚ := fun j =>
        if rm.restMask j then fmod (rm.restAngles j - q j + npPi) (2 * npPi) - npPi
        else 0
      -- line 233: u_null = M @ (nkp * q_des - nkv * dq_des)
      let u_null := M.mulVec (fun j => p.nkp * q_des j - p.nkv * dq_des' j)
      -- lines 235-238
      u3 + (nullFilterOf M_inv Mx J).mulVec u_null
    else u3
  { u := u4, training_signal := training, u_vmax := u_vmax, Mx := Mx,
    Mx_non_singular := mxns,
    state := { integrated_error := ie', dq_des := dq_des' } }

/-- `OSC.generate` (lines 103-240).  `np.linalg.inv(M)` at line 141 raises
`LinAlgError` on a singular mass matrix, before the `det(M) != 0` test of
line 148 is ever reached, so the whole call is `Option`-valued.
`np.linalg.pinv(Mx_inv, rcond=.04)` at line 155 is an external SVD routine
whose values are not rational; `generate` is parametric in it (`pinv`), and
every theorem below holds for every implementation of it. -/
def generate {n : ℕ} (pinv : Matrix (Fin 3) (Fin 3) ℚ → Matrix (Fin 3) (Fin 3) ℚ)
    (p : OSCParams) (rm : RobotModel n) (q dq : Fin n → ℚ)
    (target_pos target_vel : Fin 3 → ℚ) (ee_force : Option (Fin 3 → ℚ))
    (st : OSCState n) : Option (GenOut n) :=
  (npInv (rm.M q)).bind fun M_inv =>
    let Mx_inv := rm.J q * M_inv * (rm.J q).transpose
    (if (rm.M q).det ≠ 0 then (npInv Mx_inv).map fun Mx => (Mx, some Mx_inv)
     else some (pinv Mx_inv, none)).map fun r =>
      generateCore p rm q dq target_pos target_vel ee_force st M_inv r.1 r.2

/-- `OSC.__init__` (lines 45-85).  `kv` is taken as an explicit rational
(the `kv=None ↦ sqrt(kp)` default is an irrational square root; every claim
below supplies `kv`).  Python raises `ZeroDivisionError` computing
`self.lamb = self.kp / self.kv` when `kv = 0`, modelled as `none`.
`sqrt_nkp` carries the value numpy returns for `np.sqrt(0.1 * kp)`.
Lines 82-85 run one warm-up `generate` call with zero joint state and zero
target before construction completes. -/
def oscInit {n : ℕ} (pinv : Matrix (Fin 3) (Fin 3) ℚ → Matrix (Fin 3) (Fin 3) ℚ)
    (rm : RobotModel n) (kp kv ki : ℚ) (vmax : Option ℚ)
    (null_control use_g use_C use_dJ : Bool)
    (integrated_error : Option (Fin 3 → ℚ)) (sqrt_nkp : ℚ) :
    Option (OSCParams × OSCState n) :=
  if kv = 0 then none
  else
    let p : OSCParams :=
      { kp := kp, kv := kv, ki := ki, vmax := vmax, lamb := kp / kv,
        nkp := kp * (1 / 10), nkv := sqrt_nkp, null_control := null_control,
        use_g := use_g, use_C := use_C, use_dJ := use_dJ }
    let st0 : OSCState n :=
      { integrated_error := integrated_error.getD (fun _ => 0),
        dq_des := fun _ => 0 }
    (generate pinv p rm (fun _ => 0) (fun _ => 0) (fun _ => 0) (fun _ => 0)
        none st0).map fun out => (p, out.state)

/-- Iterated per-axis integral accumulation: the effect on one axis of the
update `self.integrated_error += x_tilde` (line 197) over a sequence of
calls whose position errors on that axis are `es`, starting from `a`. -/
def accumAfter (a : ℚ) (es : List ℚ) : ℚ := es.foldl (fun x e => x + e) a

/-! ## Supporting lemmas -/

theorem argmin3_le (f : Fin 3 → WithTop ℚ) (j : Fin 3) : f (argmin3 f) ≤ f j := by
  unfold argmin3
  split_ifs with h1 h2
  · fin_cases j
    · exact le_refl _
    · exact h1.1
    · exact h1.2
  · fin_cases j
    · rcases not_and_or.mp h1 with h | h
      · exact le_of_not_le h
      · exact le_trans h2 (le_of_not_le h)
    · exact le_refl _
    · exact h2
  · have h21 : f 2 ≤ f 1 := le_of_not_le h2
    fin_cases j
    · rcases not_and_or.mp h1 with h | h
      · exact le_trans h21 (le_of_not_le h)
      · exact le_of_not_le h
    · exact h21
    · exact le_refl _

theorem clip01_eq_one {x : ℚ} (h : 1 ≤ x) : clip01 x = 1 := by
  rw [clip01, max_eq_left (by linarith), min_eq_right h]

theorem clip01_eq_self {x : ℚ} (h0 : 0 ≤ x) (h1 : x ≤ 1) : clip01 x = x := by
  rw [clip01, max_eq_left h0, min_eq_left h1]

theorem clipFrac_one_of_one_le {s : WithTop ℚ} (h : 1 ≤ s) : clipFrac s 1 = 1 := by
  induction s using WithTop.recTopCoe with
  | top => simp [clipFrac]
  | coe x =>
    have hx : (1 : ℚ) ≤ x := by exact_mod_cast h
    simp only [clipFrac, WithTop.coe_ne_top, if_false, WithTop.untop'_coe, one_ne_zero,
      div_one]
    exact clip01_eq_one hx

theorem satVec_eq_coe {vmax lamb : ℚ} {e : Fin 3 → ℚ} {i : Fin 3}
    (h : lamb * |e i| ≠ 0) :
    satVec vmax lamb e i = ((vmax / (lamb * |e i|) : ℚ) : WithTop ℚ) := by
  rw [satVec, if_neg h]

theorem satVec_eq_top {vmax lamb : ℚ} {e : Fin 3 → ℚ} {i : Fin 3}
    (h : lamb * |e i| = 0) : satVec vmax lamb e i = ⊤ := by
  rw [satVec, if_pos h]

theorem scaleVec_of_not_any {kp kv vmax lamb : ℚ} {e : Fin 3 → ℚ}
    (h : ¬(satVec vmax lamb e 0 < 1 ∨ satVec vmax lamb e 1 < 1 ∨
      satVec vmax lamb e 2 < 1)) :
    scaleVec kp kv vmax lamb e = fun _ => 1 := by
  rw [scaleVec, if_neg h]

theorem scaleVec_of_any {kp kv vmax lamb : ℚ} {e : Fin 3 → ℚ}
    (h : satVec vmax lamb e 0 < 1 ∨ satVec vmax lamb e 1 < 1 ∨
      satVec vmax lamb e 2 < 1) :
    scaleVec kp kv vmax lamb e = fun i =>
      if i = argmin3 (satVec vmax lamb e) then 1
      else kv * vmax * npSign (e (argmin3 (satVec vmax lamb e))) /
        (kp * e (argmin3 (satVec vmax lamb e))) := by
  rw [scaleVec, if_pos h]

/-! ## Claim C1 : singular mass matrix -/

/-- Concrete 2-joint robot model whose mass matrix is exactly singular. -/
def rm2 : RobotModel 2 where
  Tx := fun _ => ![0, 0, 0]
  J := fun _ => !![1, 0; 0, 1; 0, 0]
  dJ := fun _ _ => 0
  M := fun _ => !![1, 0; 0, 0]
  g := fun _ => ![0, 0]
  c := fun _ _ => ![0, 0]
  restMask := fun _ => false
  restAngles := fun _ => 0

/-- Default-like controller parameters used for the C1 evaluation. -/
def cfg1 : OSCParams :=
  { kp := 1, kv := 1, ki := 0, vmax := some (1/2), lamb := 1, nkp := 1/10,
    nkv := 0, null_control := true, use_g := true, use_C := false,
    use_dJ := false }

/-- C1: with a non-invertible mass matrix (`det M = 0`), `OSC.generate`
FAILS: `np.linalg.inv(M)` at line 141 raises `LinAlgError` before the
`det(M) != 0` fallback test of line 148 can select the regularized
pseudo-inverse.  The failure holds for every implementation of
`np.linalg.pinv`, showing the fallback path is unreachable for an exactly
singular `M`.  This contradicts the claim that such a call never fails. -/
theorem claim1_singular_mass_raises :
    (rm2.M ![0, 0]).det = 0 ∧
    ∀ pinv, generate pinv cfg1 rm2 ![0, 0] ![0, 0] ![0, 0, 0] ![0, 0, 0] none
      ⟨![0, 0, 0], ![0, 0]⟩ = none := by
  have hdet : (rm2.M ![0, 0]).det = 0 := by
    simp [rm2, Matrix.det_fin_two]
  refine ⟨hdet, fun pinv => ?_⟩
  have h : npInv (rm2.M ![0, 0]) = none := by rw [npInv, if_pos hdet]
  simp only [generate, h, Option.none_bind]

/-! ## Claim C9 : zero-error axes under the velocity limit -/

/-- C9: with `vmax` enabled and positive gains, an axis `i` with zero
position error is never selected by `argmin` as the most-saturated axis
while some axis `j` has nonzero error, and its clipped approach-velocity
contribution is exactly 0 (the clip happens before the multiplication by
`x_tilde`, so no indeterminate value arises). -/
theorem claim9_zero_error_axis (kp kv vmax : ℚ) (e : Fin 3 → ℚ) (i j : Fin 3)
    (hkp : 0 < kp) (hkv : 0 < kv) (hv : 0 < vmax)
    (hei : e i = 0) (hej : e j ≠ 0) :
    argmin3 (satVec vmax (kp / kv) e) ≠ i ∧
    approachVel kp kv (kp / kv) vmax e i = 0 := by
  have hlamb : kp / kv ≠ 0 := ne_of_gt (div_pos hkp hkv)
  constructor
  · intro hmin
    have htop : satVec vmax (kp / kv) e i = ⊤ :=
      satVec_eq_top (by rw [hei, abs_zero, mul_zero])
    have hjne : satVec vmax (kp / kv) e j ≠ ⊤ := by
      rw [satVec_eq_coe (mul_ne_zero hlamb (abs_ne_zero.mpr hej))]
      exact WithTop.coe_ne_top
    have hle := argmin3_le (satVec vmax (kp / kv) e) j
    rw [hmin, htop] at hle
    exact hjne (top_le_iff.mp hle)
  · simp [approachVel, hei]

/-- C9 witness: concrete evaluation at `e = (0, 1, 0)`, `i = 0`, `j = 1`. -/
theorem claim9_witness :
    ((0 : ℚ) < 1 ∧ (![(0 : ℚ), 1, 0] : Fin 3 → ℚ) 0 = 0 ∧
      (![(0 : ℚ), 1, 0] : Fin 3 → ℚ) 1 ≠ 0) ∧
    (argmin3 (satVec 1 (1 / 1) ![(0 : ℚ), 1, 0]) ≠ 0 ∧
      approachVel 1 1 (1 / 1) 1 ![(0 : ℚ), 1, 0] 0 = 0) :=
  ⟨⟨by norm_num, by norm_num, by norm_num⟩,
    claim9_zero_error_axis 1 1 1 ![(0 : ℚ), 1, 0] 0 1 (by norm_num) (by norm_num)
      (by norm_num) (by norm_num) (by norm_num)⟩

/-! ## Claim C10 : unsaturated case reduces to the PD law -/

/-- C10: when `vmax` is enabled but no axis is saturated (`sat_i ≥ 1` for
every axis, with `inf` counting as `≥ 1` for a zero-error axis), the
velocity-limited task-space force reduces exactly to the proportional-
derivative law `-kp * e - kv * (J dq - target_vel)`. -/
theorem claim10_unsaturated_pd (kp kv vmax : ℚ) (e dx tv : Fin 3 → ℚ) (i : Fin 3)
    (hkv : kv ≠ 0) (hsat : ∀ j, 1 ≤ satVec vmax (kp / kv) e j) :
    uTaskVmax kp kv (kp / kv) vmax e dx tv i = -kp * e i - kv * (dx i - tv i) := by
  have hnot : ¬(satVec vmax (kp / kv) e 0 < 1 ∨ satVec vmax (kp / kv) e 1 < 1 ∨
      satVec vmax (kp / kv) e 2 < 1) := by
    push_neg
    exact ⟨hsat 0, hsat 1, hsat 2⟩
  have hclip : clipFrac (satVec vmax (kp / kv) e i) 1 = 1 :=
    clipFrac_one_of_one_le (hsat i)
  rw [uTaskVmax, approachVel, scaleVec_of_not_any hnot]
  simp only [hclip]
  field_simp
  ring

/-- C10 witness: `kp = kv = vmax = 1`, `e = (1/2, 0, 0)` (so `sat =
(2, inf, inf)`, nothing saturated), `dx = (1, 0, 0)`, `tv = 0`. -/
theorem claim10_witness :
    ((1 : ℚ) ≠ 0 ∧ (∀ j, 1 ≤ satVec 1 ((1 : ℚ) / 1) ![(1 : ℚ)/2, 0, 0] j)) ∧
    uTaskVmax 1 1 ((1 : ℚ) / 1) 1 ![(1 : ℚ)/2, 0, 0] ![(1 : ℚ), 0, 0] 0 0 =
      -1 * (![(1 : ℚ)/2, 0, 0] 0) - 1 * ((![(1 : ℚ), 0, 0] : Fin 3 → ℚ) 0 - (0 : Fin 3 → ℚ) 0) := by
  have hsat : ∀ j, 1 ≤ satVec 1 ((1 : ℚ) / 1) ![(1 : ℚ)/2, 0, 0] j := by
    intro j
    have h12 : |(1 : ℚ) / 2| = 1 / 2 := abs_of_pos (by norm_num)
    fin_cases j
    · rw [satVec_eq_coe (by norm_num)]
      rw [show ((1 : WithTop ℚ)) = ((1 : ℚ) : WithTop ℚ) from rfl, WithTop.coe_le_coe]
      norm_num [h12]
    · rw [satVec_eq_top (by norm_num)]; exact le_top
    · rw [satVec_eq_top (by norm_num)]; exact le_top
  exact ⟨⟨one_ne_zero, hsat⟩,
    claim10_unsaturated_pd 1 1 1 ![(1 : ℚ)/2, 0, 0] ![(1 : ℚ), 0, 0] 0 0
      one_ne_zero hsat⟩

/-! ## Claim C2 : the velocity cap is respected on every axis -/

theorem clipFrac_coe (x sc : ℚ) (hsc : sc ≠ 0) :
    clipFrac (x : WithTop ℚ) sc = clip01 (x / sc) := by
  simp [clipFrac, hsc, WithTop.coe_ne_top]

/-- C2: with `vmax` enabled and positive gains (`lamb = kp / kv` as set by
`__init__`), the clipped approach-velocity term
`clip(sat / scale, 0, 1) * (-lamb * scale * x_tilde)` has magnitude at most
`vmax` on every axis, however large the position error is. -/
theorem claim2_velocity_cap (kp kv vmax : ℚ) (e : Fin 3 → ℚ) (i : Fin 3)
    (hkp : 0 < kp) (hkv : 0 < kv) (hv : 0 < vmax) :
    |approachVel kp kv (kp / kv) vmax e i| ≤ vmax := by
  have hlamb : 0 < kp / kv := div_pos hkp hkv
  by_cases he0 : e i = 0
  · rw [approachVel, he0]
    simp only [mul_zero, abs_zero]
    linarith
  have hdeni : 0 < kp / kv * |e i| := mul_pos hlamb (abs_pos.mpr he0)
  by_cases hbr : satVec vmax (kp / kv) e 0 < 1 ∨ satVec vmax (kp / kv) e 1 < 1 ∨
      satVec vmax (kp / kv) e 2 < 1
  case neg =>
    have hsati : 1 ≤ satVec vmax (kp / kv) e i := by
      push_neg at hbr
      obtain ⟨h0, h1, h2⟩ := hbr
      fin_cases i
      exacts [h0, h1, h2]
    simp only [approachVel, @scaleVec_of_not_any kp kv vmax (kp / kv) e hbr]
    rw [clipFrac_one_of_one_le hsati]
    have h1 : (1 : ℚ) ≤ vmax / (kp / kv * |e i|) := by
      rw [satVec_eq_coe (ne_of_gt hdeni)] at hsati
      exact_mod_cast hsati
    have h2 : kp / kv * |e i| ≤ vmax := by
      rw [le_div_iff hdeni] at h1
      linarith
    calc |1 * (-(kp / kv) * 1 * e i)| = kp / kv * |e i| := by
          rw [one_mul, mul_one, abs_mul, abs_neg, abs_of_pos hlamb]
      _ ≤ vmax := h2
  case pos =>
    simp only [approachVel, @scaleVec_of_any kp kv vmax (kp / kv) e hbr]
    set idx := argmin3 (satVec vmax (kp / kv) e) with hidxdef
    have hargle : ∀ j, satVec vmax (kp / kv) e idx ≤ satVec vmax (kp / kv) e j :=
      fun j => argmin3_le _ j
    have hminlt : satVec vmax (kp / kv) e idx < 1 := by
      rcases hbr with h | h | h
      exacts [lt_of_le_of_lt (hargle 0) h, lt_of_le_of_lt (hargle 1) h,
        lt_of_le_of_lt (hargle 2) h]
    have hidxden : kp / kv * |e idx| ≠ 0 := by
      intro h
      rw [satVec_eq_top h] at hminlt
      exact absurd hminlt (by simp)
    have heidx : e idx ≠ 0 := by
      intro h
      exact hidxden (by rw [h, abs_zero, mul_zero])
    have hdenidx : 0 < kp / kv * |e idx| := mul_pos hlamb (abs_pos.mpr heidx)
    set satQ : ℚ := vmax / (kp / kv * |e idx|) with hsatQdef
    have hsatidx : satVec vmax (kp / kv) e idx = ((satQ : ℚ) : WithTop ℚ) :=
      satVec_eq_coe hidxden
    have hsatQlt : satQ < 1 := by
      rw [hsatidx] at hminlt
      exact_mod_cast hminlt
    have hsatQpos : 0 < satQ := div_pos hv hdenidx
    have hscaleval : kv * vmax * npSign (e idx) / (kp * e idx) = satQ := by
      rw [hsatQdef]
      rcases lt_trichotomy (e idx) 0 with hneg | hz | hpos
      · rw [npSign, if_neg (by linarith), if_pos hneg, abs_of_neg hneg]
        rw [div_eq_div_iff (ne_of_lt (mul_neg_of_pos_of_neg hkp hneg))
          (ne_of_gt (mul_pos hlamb (by linarith)))]
        field_simp
        ring
      · exact absurd hz heidx
      · rw [npSign, if_pos hpos, abs_of_pos hpos]
        rw [div_eq_div_iff (ne_of_gt (mul_pos hkp hpos))
          (ne_of_gt (mul_pos hlamb hpos))]
        field_simp
        ring
    by_cases hii : i = idx
    · -- the most-saturated axis itself: the term is exactly vmax in magnitude
      rw [hii, if_pos rfl, hsatidx, clipFrac_coe _ _ one_ne_zero, div_one,
        clip01_eq_self (le_of_lt hsatQpos) (le_of_lt hsatQlt)]
      have habs : |satQ * (-(kp / kv) * 1 * e idx)| = satQ * (kp / kv * |e idx|) := by
        rw [mul_one, abs_mul, abs_mul, abs_neg, abs_of_pos hsatQpos, abs_of_pos hlamb]
      rw [habs, hsatQdef]
      exact le_of_eq (div_mul_cancel₀ vmax (ne_of_gt hdenidx))
    · -- a less-saturated axis: the clip saturates at 1 and the term is
      -- vmax * |e i| / |e idx| ≤ vmax
      rw [if_neg hii, hscaleval]
      set satQi : ℚ := vmax / (kp / kv * |e i|) with hsatQidef
      have hsatic : satVec vmax (kp / kv) e i = ((satQi : ℚ) : WithTop ℚ) :=
        satVec_eq_coe (ne_of_gt hdeni)
      have hQle : satQ ≤ satQi := by
        have h := hargle i
        rw [hsatidx, hsatic] at h
        exact_mod_cast h
      rw [hsatic, clipFrac_coe _ _ (ne_of_gt hsatQpos),
        clip01_eq_one ((one_le_div hsatQpos).mpr hQle)]
      have hden : kp / kv * |e i| ≤ kp / kv * |e idx| := by
        rw [hsatQdef, hsatQidef] at hQle
        exact (div_le_div_left hv hdenidx hdeni).mp hQle
      have habs : |1 * (-(kp / kv) * satQ * e i)| = kp / kv * satQ * |e i| := by
        rw [one_mul, abs_mul, abs_mul, abs_neg, abs_of_pos hlamb, abs_of_pos hsatQpos]
      rw [habs]
      calc kp / kv * satQ * |e i| = satQ * (kp / kv * |e i|) := by ring
        _ ≤ satQ * (kp / kv * |e idx|) :=
            mul_le_mul_of_nonneg_left hden (le_of_lt hsatQpos)
        _ = vmax := by
            rw [hsatQdef]
            exact div_mul_cancel₀ vmax (ne_of_gt hdenidx)

/-- C2 witness: `kp = kv = vmax = 1`, error `(2, 0, 0)` (axis 0 saturated:
`sat_0 = 1/2 < 1`). -/
theorem claim2_witness :
    (0 : ℚ) < 1 ∧ |approachVel 1 1 ((1 : ℚ) / 1) 1 ![(2 : ℚ), 0, 0] 0| ≤ 1 :=
  ⟨by norm_num,
    claim2_velocity_cap 1 1 1 ![(2 : ℚ), 0, 0] 0 (by norm_num) (by norm_num)
      (by norm_num)⟩

/-! ## Claim C3 : null-space filter orthogonality -/

/-- A symmetric, invertible 4-joint mass matrix with joint coupling. -/
def M4 : Matrix (Fin 4) (Fin 4) ℚ := !![2,0,0,-1; 0,1,0,0; 0,0,1,0; -1,0,0,1]

/-- The inverse of `M4`. -/
def M4inv : Matrix (Fin 4) (Fin 4) ℚ := !![1,0,0,1; 0,1,0,0; 0,0,1,0; 1,0,0,2]

/-- A full-row-rank 3×4 task Jacobian. -/
def J4 : Matrix (Fin 3) (Fin 4) ℚ := !![1,0,0,0; 0,1,0,0; 0,0,1,0]

theorem M4_mul_M4inv : M4 * M4inv = 1 := by
  ext i j
  fin_cases i <;> fin_cases j <;>
    norm_num [M4, M4inv, Matrix.mul_apply, Fin.sum_univ_four, Matrix.one_apply,
      Matrix.vecHead, Matrix.vecTail, Fin.ext_iff]

/-- C3 counterexample: for the symmetric invertible `M4` and full-rank `J4`
(with `Mx_inv = J4 · M4⁻¹ · J4ᵀ` invertible — it is the identity), the
product `J · filter` with `filter = I - Jᵀ · Jbarᵀ`, `Jbar = M⁻¹ · Jᵀ · Mx`
exactly as built at lines 235-236, is NOT the zero matrix: its (0,3) entry
is -1. -/
theorem claim3_counterexample :
    J4 * nullFilterOf (npInvVal M4) (npInvVal (J4 * npInvVal M4 * J4.transpose))
      J4 ≠ 0 := by
  have hinv : npInvVal M4 = M4inv := by
    rw [npInvVal_eq_inv]
    exact Matrix.inv_eq_right_inv M4_mul_M4inv
  have hMx : J4 * M4inv * J4.transpose = 1 := by
    ext i j
    fin_cases i <;> fin_cases j <;>
      norm_num [J4, M4inv, Matrix.mul_apply, Fin.sum_univ_four, Fin.sum_univ_three,
        Matrix.one_apply, Matrix.vecHead, Matrix.vecTail, Matrix.transpose_apply,
        Fin.ext_iff]
  have hone : npInvVal (1 : Matrix (Fin 3) (Fin 3) ℚ) = 1 := by
    rw [npInvVal_eq_inv, inv_one]
  rw [hinv, hMx, hone]
  intro h
  have hval : (J4 * nullFilterOf M4inv 1 J4) 0 3 = -1 := by
    norm_num [J4, M4inv, nullFilterOf, Matrix.mul_apply, Matrix.sub_apply,
      Matrix.one_apply, Matrix.transpose_apply, Fin.sum_univ_four,
      Fin.sum_univ_three, Matrix.vecHead, Matrix.vecTail, Fin.ext_iff]
    decide
  rw [h, Matrix.zero_apply] at hval
  exact absurd hval (by norm_num)

/-- C3 (amended): what actually holds for the filter built at lines 235-236
is dynamic consistency: for symmetric invertible `M` and invertible
`Mx_inv = J · M⁻¹ · Jᵀ`, the product `J · M⁻¹ · filter` is the zero matrix,
so the projected null-space torque produces no task-space *acceleration*
(`J · filter` itself is nonzero in general, see the counterexample). -/
theorem claim3_amended {n : ℕ} (M : Matrix (Fin n) (Fin n) ℚ)
    (J : Matrix (Fin 3) (Fin n) ℚ) (hsym : M.transpose = M) (hM : M.det ≠ 0)
    (hMx : (J * npInvVal M * J.transpose).det ≠ 0) :
    J * npInvVal M *
      nullFilterOf (npInvVal M) (npInvVal (J * npInvVal M * J.transpose)) J = 0 := by
  simp only [npInvVal_eq_inv, nullFilterOf] at hMx ⊢
  have hMi : M⁻¹.transpose = M⁻¹ := by
    rw [Matrix.transpose_nonsing_inv, hsym]
  set B := J * M⁻¹ * J.transpose with hB
  have hBt : B.transpose = B := by
    rw [hB, Matrix.transpose_mul, Matrix.transpose_mul, Matrix.transpose_transpose,
      hMi, Matrix.mul_assoc]
  have hMxt : (B⁻¹).transpose = B⁻¹ := by
    rw [Matrix.transpose_nonsing_inv, hBt]
  have hBMx : B * B⁻¹ = 1 :=
    Matrix.mul_nonsing_inv B (isUnit_iff_ne_zero.mpr hMx)
  rw [Matrix.transpose_mul, Matrix.transpose_mul, Matrix.transpose_transpose,
    hMi, hMxt, Matrix.mul_sub, Matrix.mul_one,
    ← Matrix.mul_assoc (J * M⁻¹) J.transpose, ← Matrix.mul_assoc, ← hB, hBMx,
    Matrix.one_mul, sub_self]

/-- C3 witness: the amended statement evaluated at `M = J = I₃`. -/
theorem claim3_witness :
    ((1 : Matrix (Fin 3) (Fin 3) ℚ).transpose = 1 ∧
      (1 : Matrix (Fin 3) (Fin 3) ℚ).det ≠ 0 ∧
      ((1 : Matrix (Fin 3) (Fin 3) ℚ) * npInvVal (1 : Matrix (Fin 3) (Fin 3) ℚ) *
        (1 : Matrix (Fin 3) (Fin 3) ℚ).transpose).det ≠ 0) ∧
    (1 : Matrix (Fin 3) (Fin 3) ℚ) * npInvVal (1 : Matrix (Fin 3) (Fin 3) ℚ) *
      nullFilterOf (npInvVal (1 : Matrix (Fin 3) (Fin 3) ℚ))
        (npInvVal ((1 : Matrix (Fin 3) (Fin 3) ℚ) *
          npInvVal (1 : Matrix (Fin 3) (Fin 3) ℚ) *
          (1 : Matrix (Fin 3) (Fin 3) ℚ).transpose)) 1 = 0 := by
  have h1 : (1 : Matrix (Fin 3) (Fin 3) ℚ).transpose = 1 := Matrix.transpose_one
  have h2 : (1 : Matrix (Fin 3) (Fin 3) ℚ).det ≠ 0 := by simp
  have h3 : ((1 : Matrix (Fin 3) (Fin 3) ℚ) * npInvVal (1 : Matrix (Fin 3) (Fin 3) ℚ) *
      (1 : Matrix (Fin 3) (Fin 3) ℚ).transpose).det ≠ 0 := by
    simp [npInvVal_eq_inv]
  exact ⟨⟨h1, h2, h3⟩, claim3_amended 1 1 h1 h2 h3⟩

/-! ## Evaluating `generate` on the non-singular path -/

theorem generate_eq_some {n : ℕ}
    (pinv : Matrix (Fin 3) (Fin 3) ℚ → Matrix (Fin 3) (Fin 3) ℚ)
    (p : OSCParams) (rm : RobotModel n) (q dq : Fin n → ℚ)
    (tp tv : Fin 3 → ℚ) (ee : Option (Fin 3 → ℚ)) (st : OSCState n)
    (hM : (rm.M q).det ≠ 0)
    (hMx : (rm.J q * npInvVal (rm.M q) * (rm.J q).transpose).det ≠ 0) :
    generate pinv p rm q dq tp tv ee st =
      some (generateCore p rm q dq tp tv ee st (npInvVal (rm.M q))
        (npInvVal (rm.J q * npInvVal (rm.M q) * (rm.J q).transpose))
        (some (rm.J q * npInvVal (rm.M q) * (rm.J q).transpose))) := by
  rw [generate, npInv_eq_some hM]
  simp only [Option.some_bind]
  rw [if_pos hM, npInv_eq_some hMx]
  simp only [Option.map_some']

/-! ## Claim C4 : gravity-toggle isolation -/

/-- C4: two `generate` calls with identical inputs and state, one with
`use_g` on and one with `use_g` off, return torques differing by exactly the
gravity vector `g(q)` of the robot model, and their `training_signal`
snapshots (taken at line 219, before gravity is subtracted) are identical. -/
theorem claim4_gravity_toggle {n : ℕ}
    (pinv : Matrix (Fin 3) (Fin 3) ℚ → Matrix (Fin 3) (Fin 3) ℚ)
    (p : OSCParams) (rm : RobotModel n) (q dq : Fin n → ℚ)
    (tp tv : Fin 3 → ℚ) (ee : Option (Fin 3 → ℚ)) (st : OSCState n)
    (hM : (rm.M q).det ≠ 0)
    (hMx : (rm.J q * npInvVal (rm.M q) * (rm.J q).transpose).det ≠ 0) :
    (generate pinv { p with use_g := true } rm q dq tp tv ee st).map
        (fun o => o.u) =
      (generate pinv { p with use_g := false } rm q dq tp tv ee st).map
        (fun o => fun j => o.u j - rm.g q j) ∧
    (generate pinv { p with use_g := true } rm q dq tp tv ee st).map
        (fun o => o.training_signal) =
      (generate pinv { p with use_g := false } rm q dq tp tv ee st).map
        (fun o => o.training_signal) := by
  rw [generate_eq_some pinv _ rm q dq tp tv ee st hM hMx,
    generate_eq_some pinv _ rm q dq tp tv ee st hM hMx]
  simp only [Option.map_some', Option.some.injEq]
  constructor
  · simp only [generateCore]
    cases hnc : p.null_control
    · simp only [hnc, Bool.false_eq_true, if_false]
      funext j
      simp [Pi.sub_apply]
    · simp only [hnc, if_true]
      funext j
      simp [Pi.add_apply, Pi.sub_apply]
      ring
  · simp only [generateCore]

/-- C4 witness: concrete 3-joint identity-like model with nonzero gravity. -/
def rm3g : RobotModel 3 where
  Tx := fun _ => ![0, 0, 0]
  J := fun _ => 1
  dJ := fun _ _ => 0
  M := fun _ => 1
  g := fun _ => ![7, 0, 0]
  c := fun _ _ => ![0, 0, 0]
  restMask := fun _ => false
  restAngles := fun _ => 0

/-- Base parameters for the C4 witness. -/
def cfg4 : OSCParams :=
  { kp := 1, kv := 1, ki := 0, vmax := none, lamb := 1, nkp := 1/10,
    nkv := 0, null_control := false, use_g := true, use_C := false,
    use_dJ := false }

/-- A concrete stand-in for `np.linalg.pinv` (its value is irrelevant:
every theorem holds for every implementation). -/
def pinv0 : Matrix (Fin 3) (Fin 3) ℚ → Matrix (Fin 3) (Fin 3) ℚ := fun _ => 0

/-- C4 witness: the gravity toggle evaluated at the concrete model `rm3g`. -/
theorem claim4_witness :
    ((rm3g.M ![0, 0, 0]).det ≠ 0 ∧
      (rm3g.J ![0, 0, 0] * npInvVal (rm3g.M ![0, 0, 0]) *
        (rm3g.J ![0, 0, 0]).transpose).det ≠ 0) ∧
    ((generate pinv0 { cfg4 with use_g := true } rm3g ![0, 0, 0] ![0, 0, 0]
        ![1, 0, 0] ![0, 0, 0] none ⟨![0, 0, 0], ![0, 0, 0]⟩).map (fun o => o.u) =
      (generate pinv0 { cfg4 with use_g := false } rm3g ![0, 0, 0] ![0, 0, 0]
        ![1, 0, 0] ![0, 0, 0] none ⟨![0, 0, 0], ![0, 0, 0]⟩).map
        (fun o => fun j => o.u j - rm3g.g ![0, 0, 0] j) ∧
    (generate pinv0 { cfg4 with use_g := true } rm3g ![0, 0, 0] ![0, 0, 0]
        ![1, 0, 0] ![0, 0, 0] none ⟨![0, 0, 0], ![0, 0, 0]⟩).map
        (fun o => o.training_signal) =
      (generate pinv0 { cfg4 with use_g := false } rm3g ![0, 0, 0] ![0, 0, 0]
        ![1, 0, 0] ![0, 0, 0] none ⟨![0, 0, 0], ![0, 0, 0]⟩).map
        (fun o => o.training_signal)) := by
  have hM : (rm3g.M ![0, 0, 0]).det ≠ 0 := by simp [rm3g]
  have hMx : (rm3g.J ![0, 0, 0] * npInvVal (rm3g.M ![0, 0, 0]) *
      (rm3g.J ![0, 0, 0]).transpose).det ≠ 0 := by
    simp [rm3g, npInvVal_eq_inv]
  exact ⟨⟨hM, hMx⟩,
    claim4_gravity_toggle pinv0 cfg4 rm3g ![0, 0, 0] ![0, 0, 0] ![1, 0, 0]
      ![0, 0, 0] none ⟨![0, 0, 0], ![0, 0, 0]⟩ hM hMx⟩

/-! ## Claim C5 : force law with vmax disabled -/

/-- C5: with `vmax` disabled (`None`), `ki = 0`, no external force and all
compensation / null-control flags off, the vmax-stage force is exactly
`-kp * (pose - target_pos)` and the returned torque is exactly
`Jᵀ · Mx · (-kp · e) - M · dq` (so for `dq = 0` it is `Jᵀ · Mx · (-kp · e)`). -/
theorem claim5_vmax_disabled {n : ℕ}
    (pinv : Matrix (Fin 3) (Fin 3) ℚ → Matrix (Fin 3) (Fin 3) ℚ)
    (p : OSCParams) (rm : RobotModel n) (q dq : Fin n → ℚ)
    (tp tv : Fin 3 → ℚ) (st : OSCState n)
    (hki : p.ki = 0) (hvmax : p.vmax = none) (hdJ : p.use_dJ = false)
    (hC : p.use_C = false) (hg : p.use_g = false) (hnc : p.null_control = false)
    (hM : (rm.M q).det ≠ 0)
    (hMx : (rm.J q * npInvVal (rm.M q) * (rm.J q).transpose).det ≠ 0) :
    (generate pinv p rm q dq tp tv none st).map (fun o => (o.u_vmax, o.u)) =
      some (fun i => -p.kp * (rm.Tx q i - tp i),
        (rm.J q).transpose.mulVec
          ((npInvVal (rm.J q * npInvVal (rm.M q) * (rm.J q).transpose)).mulVec
            (fun i => -p.kp * (rm.Tx q i - tp i))) - (rm.M q).mulVec dq) := by
  rw [generate_eq_some pinv p rm q dq tp tv none st hM hMx]
  simp only [Option.map_some', Option.some.injEq, Prod.mk.injEq]
  simp only [generateCore, hki, hvmax, hdJ, hC, hg, hnc, ne_eq,
    not_true_eq_false, Bool.false_eq_true, if_false, reduceIte]
  constructor <;> trivial

/-- Identity-like 3-joint model for the C5 witness. -/
def rm3 : RobotModel 3 where
  Tx := fun _ => ![0, 0, 0]
  J := fun _ => 1
  dJ := fun _ _ => 0
  M := fun _ => 1
  g := fun _ => ![0, 0, 0]
  c := fun _ _ => ![0, 0, 0]
  restMask := fun _ => false
  restAngles := fun _ => 0

/-- Parameters for the C5 witness: `vmax` disabled, all flags off. -/
def cfg5 : OSCParams :=
  { kp := 2, kv := 1, ki := 0, vmax := none, lamb := 2, nkp := 1/5,
    nkv := 0, null_control := false, use_g := false, use_C := false,
    use_dJ := false }

/-- C5 witness: the vmax-disabled law evaluated at the concrete model `rm3`. -/
theorem claim5_witness :
    (cfg5.ki = 0 ∧ cfg5.vmax = none ∧ cfg5.use_dJ = false ∧ cfg5.use_C = false ∧
      cfg5.use_g = false ∧ cfg5.null_control = false ∧
      (rm3.M ![0, 0, 0]).det ≠ 0 ∧
      (rm3.J ![0, 0, 0] * npInvVal (rm3.M ![0, 0, 0]) *
        (rm3.J ![0, 0, 0]).transpose).det ≠ 0) ∧
    (generate pinv0 cfg5 rm3 ![0, 0, 0] ![0, 0, 0] ![1, 0, 0] ![0, 0, 0] none
        ⟨![0, 0, 0], ![0, 0, 0]⟩).map (fun o => (o.u_vmax, o.u)) =
      some (fun i => -cfg5.kp * (rm3.Tx ![0, 0, 0] i - ![1, 0, 0] i),
        (rm3.J ![0, 0, 0]).transpose.mulVec
          ((npInvVal (rm3.J ![0, 0, 0] * npInvVal (rm3.M ![0, 0, 0]) *
            (rm3.J ![0, 0, 0]).transpose)).mulVec
            (fun i => -cfg5.kp * (rm3.Tx ![0, 0, 0] i - ![1, 0, 0] i))) -
          (rm3.M ![0, 0, 0]).mulVec ![0, 0, 0]) := by
  have hM : (rm3.M ![0, 0, 0]).det ≠ 0 := by simp [rm3]
  have hMx : (rm3.J ![0, 0, 0] * npInvVal (rm3.M ![0, 0, 0]) *
      (rm3.J ![0, 0, 0]).transpose).det ≠ 0 := by simp [rm3, npInvVal_eq_inv]
  exact ⟨⟨rfl, rfl, rfl, rfl, rfl, rfl, hM, hMx⟩,
    claim5_vmax_disabled pinv0 cfg5 rm3 ![0, 0, 0] ![0, 0, 0] ![1, 0, 0]
      ![0, 0, 0] ⟨![0, 0, 0], ![0, 0, 0]⟩ rfl rfl rfl rfl rfl rfl hM hMx⟩

/-! ## Claim C6 : integral accumulation and monotonicity -/

/-- Parameters with `ki = 1 > 0` for the C6 theorems. -/
def cfg6 : OSCParams :=
  { kp := 1, kv := 1, ki := 1, vmax := none, lamb := 1, nkp := 1/10,
    nkv := 0, null_control := false, use_g := false, use_C := false,
    use_dJ := false }

/-- C6 counterexample: the accumulator's magnitude is NOT non-decreasing for
every call sequence with constant-sign error.  With the caller-supplied
initial accumulator `(5, 0, 0)` (a documented constructor argument) and one
call with position error `-1` on axis 0 (`ki = 1 > 0`), the accumulator
moves from `5` to `4`: its magnitude strictly decreases. -/
theorem claim6_counterexample :
    (generate pinv0 cfg6 rm3 ![0, 0, 0] ![0, 0, 0] ![1, 0, 0] ![0, 0, 0] none
        ⟨![5, 0, 0], ![0, 0, 0]⟩).map (fun o => o.state.integrated_error 0) =
      some 4 ∧ |(4 : ℚ)| < |(5 : ℚ)| := by
  have hM : (rm3.M ![0, 0, 0]).det ≠ 0 := by simp [rm3]
  have hMx : (rm3.J ![0, 0, 0] * npInvVal (rm3.M ![0, 0, 0]) *
      (rm3.J ![0, 0, 0]).transpose).det ≠ 0 := by simp [rm3, npInvVal_eq_inv]
  constructor
  · rw [generate_eq_some pinv0 cfg6 rm3 ![0, 0, 0] ![0, 0, 0] ![1, 0, 0]
      ![0, 0, 0] none ⟨![5, 0, 0], ![0, 0, 0]⟩ hM hMx]
    simp only [Option.map_some', Option.some.injEq, generateCore]
    norm_num [rm3, cfg6]
  · norm_num

theorem accumAfter_cons (a e : ℚ) (es : List ℚ) :
    accumAfter a (e :: es) = accumAfter (a + e) es := rfl

theorem accumAfter_sign {s : ℚ} (es : List ℚ) :
    ∀ a : ℚ, 0 ≤ s * a → (∀ e ∈ es, 0 ≤ s * e) →
      s * a ≤ s * accumAfter a es := by
  induction es with
  | nil => intro a _ _; simp [accumAfter]
  | cons e es ih =>
    intro a ha he
    have he0 : 0 ≤ s * e := he e (List.mem_cons_self e es)
    rw [accumAfter_cons]
    have h1 : 0 ≤ s * (a + e) := by rw [mul_add]; linarith
    have h2 := ih (a + e) h1 (fun x hx => he x (List.mem_cons_of_mem e hx))
    have h3 : s * a ≤ s * (a + e) := by rw [mul_add]; linarith
    linarith

theorem abs_eq_sign_mul {s x : ℚ} (hs : s = 1 ∨ s = -1) (hx : 0 ≤ s * x) :
    |x| = s * x := by
  rcases hs with h | h
  · subst h; rw [one_mul] at hx ⊢; exact abs_of_nonneg hx
  · subst h; rw [neg_one_mul] at hx ⊢; rw [abs_of_nonpos (by linarith)]

/-- C6 (amended): with `ki ≠ 0` every call adds that call's position error
to the persistent accumulator (`integrated_error += x_tilde`, line 197), and
the claimed monotonicity holds under the extra premise the counterexample
forces: when the axis's accumulator starts aligned in sign with the
sustained constant-sign error (e.g. starting from the zero default), its
magnitude is non-decreasing along any call sequence, and so is the
magnitude of the integral torque contribution `ki * integrated_error`. -/
theorem claim6_amended {n : ℕ}
    (pinv : Matrix (Fin 3) (Fin 3) ℚ → Matrix (Fin 3) (Fin 3) ℚ)
    (p : OSCParams) (rm : RobotModel n) (q dq : Fin n → ℚ)
    (tp tv : Fin 3 → ℚ) (ee : Option (Fin 3 → ℚ)) (st : OSCState n) (i : Fin 3)
    (a s : ℚ) (es₁ es₂ : List ℚ)
    (hki : 0 < p.ki)
    (hM : (rm.M q).det ≠ 0)
    (hMx : (rm.J q * npInvVal (rm.M q) * (rm.J q).transpose).det ≠ 0)
    (hs : s = 1 ∨ s = -1) (ha : 0 ≤ s * a)
    (he : ∀ e ∈ es₁ ++ es₂, 0 ≤ s * e) :
    (generate pinv p rm q dq tp tv ee st).map
        (fun o => o.state.integrated_error i) =
      some (st.integrated_error i + (rm.Tx q i - tp i)) ∧
    |accumAfter a es₁| ≤ |accumAfter a (es₁ ++ es₂)| ∧
    |p.ki * accumAfter a es₁| ≤ |p.ki * accumAfter a (es₁ ++ es₂)| := by
  have hne : p.ki ≠ 0 := ne_of_gt hki
  have he₁ : ∀ e ∈ es₁, 0 ≤ s * e :=
    fun e hmem => he e (List.mem_append_left es₂ hmem)
  have he₂ : ∀ e ∈ es₂, 0 ≤ s * e :=
    fun e hmem => he e (List.mem_append_right es₁ hmem)
  have hsplit : accumAfter a (es₁ ++ es₂) = accumAfter (accumAfter a es₁) es₂ := by
    rw [accumAfter, accumAfter, accumAfter, List.foldl_append]
  have h1 : s * a ≤ s * accumAfter a es₁ := accumAfter_sign es₁ a ha he₁
  have hb1 : 0 ≤ s * accumAfter a es₁ := le_trans ha h1
  have h2 : s * accumAfter a es₁ ≤ s * accumAfter (accumAfter a es₁) es₂ :=
    accumAfter_sign es₂ (accumAfter a es₁) hb1 he₂
  have hb2 : 0 ≤ s * accumAfter (accumAfter a es₁) es₂ := le_trans hb1 h2
  have habs : |accumAfter a es₁| ≤ |accumAfter a (es₁ ++ es₂)| := by
    rw [hsplit, abs_eq_sign_mul hs hb1, abs_eq_sign_mul hs hb2]
    exact h2
  refine ⟨?_, habs, ?_⟩
  · rw [generate_eq_some pinv p rm q dq tp tv ee st hM hMx]
    simp only [Option.map_some', Option.some.injEq, generateCore]
    simp [hne]
  · rw [abs_mul, abs_mul, abs_of_pos hki]
    exact mul_le_mul_of_nonneg_left habs (le_of_lt hki)

/-- C6 witness: the amended integral monotonicity at concrete inputs
(`a = 0`, errors `[1]` then `[2]`, `ki = 1`). -/
theorem claim6_witness :
    ((0 : ℚ) < cfg6.ki ∧ (rm3.M ![0, 0, 0]).det ≠ 0 ∧
      (rm3.J ![0, 0, 0] * npInvVal (rm3.M ![0, 0, 0]) *
        (rm3.J ![0, 0, 0]).transpose).det ≠ 0 ∧
      ((1 : ℚ) = 1 ∨ (1 : ℚ) = -1) ∧ (0 : ℚ) ≤ 1 * 0 ∧
      (∀ e ∈ ([1] ++ [2] : List ℚ), 0 ≤ 1 * e)) ∧
    ((generate pinv0 cfg6 rm3 ![0, 0, 0] ![0, 0, 0] ![1, 0, 0] ![0, 0, 0] none
        ⟨![0, 0, 0], ![0, 0, 0]⟩).map (fun o => o.state.integrated_error 0) =
      some ((![(0 : ℚ), 0, 0] : Fin 3 → ℚ) 0 +
        (rm3.Tx ![0, 0, 0] 0 - (![(1 : ℚ), 0, 0] : Fin 3 → ℚ) 0)) ∧
    |accumAfter 0 [1]| ≤ |accumAfter 0 ([1] ++ [2])| ∧
    |cfg6.ki * accumAfter 0 [1]| ≤ |cfg6.ki * accumAfter 0 ([1] ++ [2])|) := by
  have hki : (0 : ℚ) < cfg6.ki := by norm_num [cfg6]
  have hM : (rm3.M ![0, 0, 0]).det ≠ 0 := by simp [rm3]
  have hMx : (rm3.J ![0, 0, 0] * npInvVal (rm3.M ![0, 0, 0]) *
      (rm3.J ![0, 0, 0]).transpose).det ≠ 0 := by simp [rm3, npInvVal_eq_inv]
  have hs : (1 : ℚ) = 1 ∨ (1 : ℚ) = -1 := Or.inl rfl
  have ha : (0 : ℚ) ≤ 1 * 0 := by norm_num
  have he : ∀ e ∈ ([1] ++ [2] : List ℚ), 0 ≤ 1 * e := by
    intro e hmem
    simp only [List.cons_append, List.nil_append, List.mem_cons,
      List.not_mem_nil, or_false] at hmem
    rcases hmem with h | h <;> subst h <;> norm_num
  exact ⟨⟨hki, hM, hMx, hs, ha, he⟩,
    claim6_amended pinv0 cfg6 rm3 ![0, 0, 0] ![0, 0, 0] ![1, 0, 0] ![0, 0, 0]
      none ⟨![0, 0, 0], ![0, 0, 0]⟩ 0 0 1 [1] [2] hki hM hMx hs ha he⟩

/-! ## Claim C7 : state after construction -/

/-- Identity-like model whose task point sits at `(1,0,0)` for every `q`. -/
def rm3T : RobotModel 3 := { rm3 with Tx := fun _ => ![1, 0, 0] }

/-- C7 counterexample: construction does NOT always leave the accumulator at
the zero-or-supplied initial value.  `__init__` runs one warm-up `generate`
call (lines 82-85) with zero joint state and zero target; with `ki = 1` and
`Tx(0) = (1,0,0)` that call adds its position error to the accumulator, so
after construction with no initial value supplied the accumulator's axis 0
holds `1`, not `0`. -/
theorem claim7_counterexample :
    (oscInit pinv0 rm3T 1 1 1 none false false false false none 0).map
      (fun r => r.2.integrated_error 0) = some 1 ∧ (1 : ℚ) ≠ 0 := by
  have hM : (rm3T.M (fun _ => 0)).det ≠ 0 := by simp [rm3T, rm3]
  have hMx : (rm3T.J (fun _ => 0) * npInvVal (rm3T.M (fun _ => 0)) *
      (rm3T.J (fun _ => 0)).transpose).det ≠ 0 := by
    simp [rm3T, rm3, npInvVal_eq_inv]
  constructor
  · simp only [oscInit]
    rw [if_neg (by norm_num : ¬((1 : ℚ) = 0))]
    rw [generate_eq_some pinv0 _ rm3T (fun _ => 0) (fun _ => 0) (fun _ => 0)
      (fun _ => 0) none _ hM hMx]
    simp only [Option.map_some', generateCore]
    norm_num [rm3T, rm3]
  · norm_num

/-- C7 (amended): after construction, `dq_des` is the zero N-vector, and the
accumulator equals the zero-or-caller-supplied initial value plus — when
`ki ≠ 0` — the warm-up call's position error `Tx(0)` (the warm-up target is
zero).  With `ki = 0` (the default) the claim holds exactly as stated. -/
theorem claim7_amended {n : ℕ}
    (pinv : Matrix (Fin 3) (Fin 3) ℚ → Matrix (Fin 3) (Fin 3) ℚ)
    (rm : RobotModel n) (kp kv ki : ℚ) (vmax : Option ℚ)
    (nc ug uC udJ : Bool) (ie0 : Option (Fin 3 → ℚ)) (sq : ℚ)
    (hkv : kv ≠ 0)
    (hM : (rm.M (fun _ => 0)).det ≠ 0)
    (hMx : (rm.J (fun _ => 0) * npInvVal (rm.M (fun _ => 0)) *
      (rm.J (fun _ => 0)).transpose).det ≠ 0) :
    (oscInit pinv rm kp kv ki vmax nc ug uC udJ ie0 sq).map
        (fun r => r.2.dq_des) = some (fun _ => 0) ∧
    (oscInit pinv rm kp kv ki vmax nc ug uC udJ ie0 sq).map
        (fun r => r.2.integrated_error) =
      some (fun i => ie0.getD (fun _ => 0) i +
        (if ki = 0 then 0 else rm.Tx (fun _ => 0) i)) := by
  simp only [oscInit]
  rw [if_neg hkv]
  rw [generate_eq_some pinv _ rm (fun _ => 0) (fun _ => 0) (fun _ => 0)
    (fun _ => 0) none _ hM hMx]
  simp only [Option.map_some', Option.some.injEq, generateCore]
  constructor
  · funext j
    cases nc <;> simp <;> cases rm.restMask j <;> simp
  · funext i
    by_cases hk : ki = 0
    · simp [hk]
    · simp [hk]

/-- C7 witness: construction with `ki = 0` (the default) at the concrete
model `rm3`. -/
theorem claim7_witness :
    ((1 : ℚ) ≠ 0 ∧ (rm3.M (fun _ => 0)).det ≠ 0 ∧
      (rm3.J (fun _ => 0) * npInvVal (rm3.M (fun _ => 0)) *
        (rm3.J (fun _ => 0)).transpose).det ≠ 0) ∧
    ((oscInit pinv0 rm3 1 1 0 none false false false false none 0).map
        (fun r => r.2.dq_des) = some (fun _ => 0) ∧
    (oscInit pinv0 rm3 1 1 0 none false false false false none 0).map
        (fun r => r.2.integrated_error) =
      some (fun i => (Option.getD (none : Option (Fin 3 → ℚ)) (fun _ => 0)) i +
        (if (0 : ℚ) = 0 then 0 else rm3.Tx (fun _ => 0) i))) := by
  have hkv : (1 : ℚ) ≠ 0 := by norm_num
  have hM : (rm3.M (fun _ => 0)).det ≠ 0 := by simp [rm3]
  have hMx : (rm3.J (fun _ => 0) * npInvVal (rm3.M (fun _ => 0)) *
      (rm3.J (fun _ => 0)).transpose).det ≠ 0 := by simp [rm3, npInvVal_eq_inv]
  exact ⟨⟨hkv, hM, hMx⟩,
    claim7_amended pinv0 rm3 1 1 0 none false false false false none 0
      hkv hM hMx⟩

/-! ## Claim C8 : no gain validation at construction -/

/-- C8 counterexample: a negative derivative gain `kv = -1` is NOT rejected:
construction runs to completion (no exception, no validation of any gain)
and returns a controller. -/
theorem claim8_counterexample :
    (oscInit pinv0 rm3 1 (-1) 0 none false false false false none 0).isSome =
      true := by
  have hM : (rm3.M (fun _ => 0)).det ≠ 0 := by simp [rm3]
  have hMx : (rm3.J (fun _ => 0) * npInvVal (rm3.M (fun _ => 0)) *
      (rm3.J (fun _ => 0)).transpose).det ≠ 0 := by simp [rm3, npInvVal_eq_inv]
  simp only [oscInit]
  rw [if_neg (by norm_num : ¬((-1 : ℚ) = 0))]
  rw [generate_eq_some pinv0 _ rm3 (fun _ => 0) (fun _ => 0) (fun _ => 0)
    (fun _ => 0) none _ hM hMx]
  simp

/-- C8 (amended): `__init__` performs no validation of the gains.  A
non-positive `kv` is not rejected with a descriptive configuration error:
`kv = 0` fails only with the incidental `ZeroDivisionError` raised by
`self.lamb = self.kp / self.kv` (line 55), and every `kv ≠ 0` — including
negative values — is silently accepted whenever the warm-up call succeeds
(no NaN/Inf arises; the torque is simply unvalidated). -/
theorem claim8_amended {n : ℕ}
    (pinv : Matrix (Fin 3) (Fin 3) ℚ → Matrix (Fin 3) (Fin 3) ℚ)
    (rm : RobotModel n) (kp kv ki : ℚ) (vmax : Option ℚ)
    (nc ug uC udJ : Bool) (ie0 : Option (Fin 3 → ℚ)) (sq : ℚ)
    (hM : (rm.M (fun _ => 0)).det ≠ 0)
    (hMx : (rm.J (fun _ => 0) * npInvVal (rm.M (fun _ => 0)) *
      (rm.J (fun _ => 0)).transpose).det ≠ 0) :
    (kv = 0 → oscInit pinv rm kp kv ki vmax nc ug uC udJ ie0 sq = none) ∧
    (kv ≠ 0 →
      (oscInit pinv rm kp kv ki vmax nc ug uC udJ ie0 sq).isSome = true) := by
  constructor
  · intro h
    simp only [oscInit]
    rw [if_pos h]
  · intro h
    simp only [oscInit]
    rw [if_neg h]
    rw [generate_eq_some pinv _ rm (fun _ => 0) (fun _ => 0) (fun _ => 0)
      (fun _ => 0) none _ hM hMx]
    simp

/-- C8 witness: the amended no-validation statement at `kv = -1`. -/
theorem claim8_witness :
    ((rm3.M (fun _ => 0)).det ≠ 0 ∧
      (rm3.J (fun _ => 0) * npInvVal (rm3.M (fun _ => 0)) *
        (rm3.J (fun _ => 0)).transpose).det ≠ 0) ∧
    (((-1 : ℚ) = 0 →
        oscInit pinv0 rm3 1 (-1) 0 none false false false false none 0 = none) ∧
      ((-1 : ℚ) ≠ 0 →
        (oscInit pinv0 rm3 1 (-1) 0 none false false false false none
          0).isSome = true)) := by
  have hM : (rm3.M (fun _ => 0)).det ≠ 0 := by simp [rm3]
  have hMx : (rm3.J (fun _ => 0) * npInvVal (rm3.M (fun _ => 0)) *
      (rm3.J (fun _ => 0)).transpose).det ≠ 0 := by simp [rm3, npInvVal_eq_inv]
  exact ⟨⟨hM, hMx⟩,
    claim8_amended pinv0 rm3 1 (-1) 0 none false false false false none 0
      hM hMx⟩

end ABR
